import Mathlib

/-!
Verification of the retrieval aggregation engine
(`backend/friday/retrieval/unified_search.py`).

Strings are modelled as `List Char` (Python code points) and floats as `ℚ`;
all definitions are transcribed from the Python source, except where a doc
comment says `Modelled from the spec:`.
-/

namespace Friday

open List

/-! ### Python string primitives -/

/-- Python `s.lower()`. -/
def toLowerL (s : List Char) : List Char := s.map Char.toLower

/-- Python `needle in hay`: substring containment (`""` is in every string). -/
def containsSub (hay needle : List Char) : Bool :=
  (List.range (hay.length + 1)).any (fun i => needle.isPrefixOf (hay.drop i))

/-- Helper for `pySplit`: `acc` holds the reversed current word. -/
def pySplitAux : List Char → List Char → List (List Char)
  | [], acc => if acc.isEmpty then [] else [acc.reverse]
  | c :: cs, acc =>
    if c.isWhitespace then
      if acc.isEmpty then pySplitAux cs [] else acc.reverse :: pySplitAux cs []
    else pySplitAux cs (c :: acc)

/-- Python `s.split()` with no argument: split on whitespace runs, no empty words. -/
def pySplit (s : List Char) : List (List Char) := pySplitAux s []

/-- Strip leading whitespace. -/
def stripLeft (s : List Char) : List Char := s.dropWhile Char.isWhitespace

/-- Strip trailing whitespace. -/
def stripRight (s : List Char) : List Char := (s.reverse.dropWhile Char.isWhitespace).reverse

/-- Python `s.strip()`: whitespace removed from both ends. -/
def pyStrip (s : List Char) : List Char := stripRight (stripLeft s)

/-! ### Result model (`SearchResult`, `UnifiedSearchResult`) -/

/-- `SearchResult` dataclass (unified_search.py line 27). The `metadata` mapping
is opaque to every operation verified here and is omitted from the model. -/
structure SearchResult where
  content : List Char
  score : ℚ
  source : List Char
  source_name : List Char
deriving DecidableEq

/-- Python `max(r.score for r in results)` on a nonempty list
(`__post_init__`, line 62); returns 0 on `[]` (that case is never used). -/
def maxScoreOf : List SearchResult → ℚ
  | [] => 0
  | r :: rs => rs.foldl (fun m x => max m x.score) r.score

/-- Python `list(set(r.source for r in results))` (line 63): the distinct
sources; the set's iteration order is unspecified, modelled by `dedup`. -/
def distinctSources (l : List SearchResult) : List (List Char) :=
  (l.map (fun r => r.source)).dedup

/-- `UnifiedSearchResult` dataclass (line 48). -/
structure UnifiedSearchResult where
  results : List SearchResult
  total_count : ℕ
  max_score : ℚ
  sources : List (List Char)
  query : List Char
deriving DecidableEq

/-- `UnifiedSearchResult.__post_init__` (lines 58-63): always recompute
`total_count`; recompute `max_score` and `sources` only when `results` is
truthy (nonempty). -/
def postInit (u : UnifiedSearchResult) : UnifiedSearchResult :=
  { u with
    total_count := u.results.length
    max_score := if u.results.isEmpty then u.max_score else maxScoreOf u.results
    sources := if u.results.isEmpty then u.sources else distinctSources u.results }

/-- Dataclass construction: field arguments (defaults `[]`, `0`, `0.0`, `[]`,
`""` in the source) followed by `__post_init__`. -/
def mkUnifiedSearchResult (results : List SearchResult) (total_count : ℕ)
    (max_score : ℚ) (sources : List (List Char)) (query : List Char) :
    UnifiedSearchResult :=
  postInit
    { results := results, total_count := total_count, max_score := max_score,
      sources := sources, query := query }

/-! ### Stable descending sort (`list.sort(key=..., reverse=True)`) -/

/-- The descending-key comparison used by Python's stable sort with
`key=key, reverse=True`. -/
def keyGe {α : Type} (key : α → ℚ) (a b : α) : Prop := key b ≤ key a

instance {α : Type} (key : α → ℚ) : DecidableRel (keyGe key) :=
  fun a b => inferInstanceAs (Decidable (key b ≤ key a))

instance {α : Type} (key : α → ℚ) : IsTotal α (keyGe key) :=
  ⟨fun a b => le_total (key b) (key a)⟩

instance {α : Type} (key : α → ℚ) : IsTrans α (keyGe key) :=
  ⟨fun _ _ _ h1 h2 => le_trans h2 h1⟩

/-- Python `l.sort(key=key, reverse=True)`: the stable sort, descending by
`key`. Insertion sort with `keyGe` is stable and sorted for this total
preorder, hence coincides with Python's Timsort result. -/
def pySortDesc {α : Type} (key : α → ℚ) (l : List α) : List α :=
  List.insertionSort (keyGe key) l

/-! ### Memory adapter (`search_memories`, lines 238-309) -/

/-- Distance-to-similarity conversion (line 290):
`score = max(0.0, min(1.0, 1.0 - distance))`. -/
def memScore (distance : ℚ) : ℚ := max 0 (min 1 (1 - distance))

/-- One hit of the vector backend's parallel arrays (document, distance);
the metadata entry is opaque and omitted. -/
structure MemoryHit where
  document : List Char
  distance : ℚ
deriving DecidableEq

/-- Result-assembly loop of `search_memories` (lines 284-298): one
`SearchResult` per backend hit, `source` is the user's memory collection
name, `source_name` is `"Memories"`. -/
def searchMemories (userCollection : List Char) (hits : List MemoryHit) :
    List SearchResult :=
  hits.map (fun h =>
    ⟨h.document, memScore h.distance, userCollection, "Memories".toList⟩)

/-! ### Note adapter (`search_notes`, lines 312-399) -/

/-- The nested `note.data` value as read by `search_notes` (lines 350-355). -/
inductive NoteData where
  /-- `note.data` is `None` or not a dict. -/
  | absent
  /-- `note.data["content"]` is a dict; missing `md`/`text` keys default `""`. -/
  | contentDict (md text : List Char)
  /-- `note.data["content"]` is a plain string. -/
  | contentStr (s : List Char)
  /-- `note.data["content"]` is neither dict nor string. -/
  | contentOther
deriving DecidableEq

/-- A readable note; an empty `title` models a falsy (`None` or `""`) title. -/
structure Note where
  id : List Char
  title : List Char
  data : NoteData
deriving DecidableEq

/-- Content extraction (lines 349-355):
`content_data.get("md", "") or content_data.get("text", "")`, or the plain
string value, else `""`. -/
def noteContent : NoteData → List Char
  | .absent => []
  | .contentDict md text => if md.isEmpty then text else md
  | .contentStr s => s
  | .contentOther => []

/-- Title contribution to the note score (lines 359-362). -/
def titleScoreN (ql title : List Char) : ℚ :=
  if containsSub title ql then 1
  else if (pySplit ql).any (fun w => containsSub title w) then 1/2
  else 0

/-- Content contribution to the note score (lines 364-367). -/
def contentScoreN (ql contentLower : List Char) : ℚ :=
  if containsSub contentLower ql then 7/10
  else if (pySplit ql).any (fun w => containsSub contentLower w) then 3/10
  else 0

/-- Total note score (lines 345-367): both fields lower-cased, query
lower-cased, contributions added. -/
def noteScore (query : List Char) (n : Note) : ℚ :=
  titleScoreN (toLowerL query) (toLowerL n.title)
    + contentScoreN (toLowerL query) (toLowerL (noteContent n.data))

/-- `full_text` for an included note (lines 370-372): the lower-cased title,
then (if content is truthy) two newlines and the first 500 characters of the
extracted content. -/
def noteFullText (n : Note) : List Char :=
  let content := noteContent n.data
  if content.isEmpty then toLowerL n.title
  else toLowerL n.title ++ ('\n' :: '\n' :: content.take 500)

/-- `scored_notes` (lines 344-374): one `(note, score, full_text)` triple per
note whose score is strictly positive, in input order. -/
def scoredNotes (query : List Char) (notes : List Note) :
    List (Note × ℚ × List Char) :=
  (notes.map (fun n => (n, noteScore query n, noteFullText n))).filter
    (fun t => decide (0 < t.2.1))

/-- `search_notes` (lines 376-392): sort the scored triples descending by
score (stable), take the top `k`, and build the `SearchResult`s. -/
def searchNotes (query : List Char) (notes : List Note) (k : ℕ) :
    List SearchResult :=
  ((pySortDesc (fun t => t.2.1) (scoredNotes query notes)).take k).map
    (fun t => ⟨t.2.2, t.2.1, t.1.id, "Note: ".toList ++ t.1.title⟩)

/-! ### Prompt adapter (`search_prompts`, lines 402-484) -/

/-- A readable prompt; empty fields model falsy (`None` or `""`) values. -/
structure Prompt where
  command : List Char
  title : List Char
  content : List Char
deriving DecidableEq

/-- Command contribution to the prompt score (lines 439-442). -/
def commandScoreP (ql cmd : List Char) : ℚ :=
  if containsSub cmd ql then 1
  else if (pySplit ql).any (fun w => containsSub cmd w) then 3/5
  else 0

/-- Title contribution to the prompt score (lines 444-447). -/
def titleScoreP (ql title : List Char) : ℚ :=
  if containsSub title ql then 4/5
  else if (pySplit ql).any (fun w => containsSub title w) then 2/5
  else 0

/-- Content contribution to the prompt score (lines 449-452). -/
def contentScoreP (ql content : List Char) : ℚ :=
  if containsSub content ql then 3/5
  else if (pySplit ql).any (fun w => containsSub content w) then 1/5
  else 0

/-- Total prompt score (lines 432-452): all three fields and the query
lower-cased, contributions added. -/
def promptScore (query : List Char) (p : Prompt) : ℚ :=
  commandScoreP (toLowerL query) (toLowerL p.command)
    + titleScoreP (toLowerL query) (toLowerL p.title)
    + contentScoreP (toLowerL query) (toLowerL p.content)

/-- `full_text` for an included prompt (lines 456-457):
`"/{command}: {title}\n\n{content[:500]}"`, original case. -/
def promptFullText (p : Prompt) : List Char :=
  ('/' :: p.command) ++ (':' :: ' ' :: p.title) ++ ('\n' :: '\n' :: p.content.take 500)

/-- `scored_prompts` (lines 432-459): one `(prompt, score, full_text)` triple
per prompt whose score is strictly positive, in input order. -/
def scoredPrompts (query : List Char) (prompts : List Prompt) :
    List (Prompt × ℚ × List Char) :=
  (prompts.map (fun p => (p, promptScore query p, promptFullText p))).filter
    (fun t => decide (0 < t.2.1))

/-- `search_prompts` (lines 461-477): sort the scored triples descending by
score (stable), take the top `k`, and build the `SearchResult`s. -/
def searchPrompts (query : List Char) (prompts : List Prompt) (k : ℕ) :
    List SearchResult :=
  ((pySortDesc (fun t => t.2.1) (scoredPrompts query prompts)).take k).map
    (fun t => ⟨t.2.2, t.2.1, t.1.command, "Prompt: ".toList ++ t.1.title⟩)

/-! ### Knowledge-collection record conversion (lines 560-600) -/

/-- The document-mapping fields read from a tuple-form raw record. -/
structure KnowledgeDoc where
  text : List Char
  content : List Char
  /-- `metadata.get("collection_name")`. -/
  collectionName : Option (List Char)
deriving DecidableEq

/-- One raw record returned by the collection search (lines 561-600). -/
inductive RawRecord where
  /-- A tuple `(source_id, numeric score, document)` of length ≥ 3. -/
  | tup (sourceId : List Char) (score : ℚ) (doc : KnowledgeDoc)
  /-- A mapping with `score` / `content` / `text` / metadata / `source` keys. -/
  | dict (score : ℚ) (content text : List Char)
      (collectionName : Option (List Char)) (sourceId : List Char)
  /-- Neither tuple-like nor mapping-like: skipped. -/
  | malformed
deriving DecidableEq

/-- `collection_names_map.get(cid, "Unknown")`: the dict built from the
discovered `(id, name)` pairs; a later duplicate key overwrites an earlier
one, so lookup finds the last matching pair. -/
def mapLookupD (m : List (List Char × List Char)) (key dflt : List Char) :
    List Char :=
  match m.reverse.find? (fun p => p.1 == key) with
  | some p => p.2
  | none => dflt

/-- Conversion of one raw record into a `SearchResult` (lines 561-600): the
tuple branch reads `text` before `content`, the dict branch reads `content`
before `text`; malformed records are skipped. -/
def convertRecord (namesMap : List (List Char × List Char)) :
    RawRecord → Option SearchResult
  | .tup sourceId score doc =>
    let content := if doc.text.isEmpty then doc.content else doc.text
    let collectionId := doc.collectionName.getD sourceId
    some ⟨content, score, collectionId,
      mapLookupD namesMap collectionId "Unknown".toList⟩
  | .dict score content text collectionName sourceId =>
    let c := if content.isEmpty then text else content
    let collectionId := collectionName.getD sourceId
    some ⟨c, score, collectionId,
      mapLookupD namesMap collectionId "Unknown".toList⟩
  | .malformed => none

/-- The conversion loop over all raw records (lines 560-600). -/
def convertRaw (namesMap : List (List Char × List Char))
    (raw : List RawRecord) : List SearchResult :=
  raw.filterMap (convertRecord namesMap)

/-! ### Aggregator (`unified_search`, lines 487-666) -/

/-- The merge step of `unified_search` (lines 644-648): stable sort descending
by score, then truncate to the first `k` — no threshold filtering. -/
def topKUnfiltered (merged : List SearchResult) (k : ℕ) : List SearchResult :=
  (pySortDesc (fun r => r.score) merged).take k

/-- `unified_search` (lines 487-666). The external collaborators' behaviour is
passed in as data: the discovered readable collections with display names, the
raw knowledge records those collections returned (dense or hybrid — both paths
yield the same record shape, and a failure inside either search helper already
collapses to `[]` there), and the outcomes of the three isolated adapter calls
(`none` models an exception escaping the adapter, whose `extend` is then
skipped). `threshold` is accepted but — like in the source — only logged, never
applied. The function is total: no exception reaches the caller. -/
def unified_search (query : List Char) (k : ℕ) (threshold : ℚ)
    (collections : List (List Char × List Char))
    (rawKnowledge : List RawRecord)
    (memoryOutcome noteOutcome promptOutcome : Option (List SearchResult)) :
    UnifiedSearchResult :=
  let knowledge :=
    if collections.isEmpty then [] else convertRaw collections rawKnowledge
  let searchResults :=
    knowledge ++ memoryOutcome.getD [] ++ noteOutcome.getD []
      ++ promptOutcome.getD []
  if searchResults.isEmpty then mkUnifiedSearchResult [] 0 0 [] query
  else mkUnifiedSearchResult (topKUnfiltered searchResults k) 0 0 [] query

/-- Modelled from the spec: the threshold-filter aggregation variant — the
second of the two historical duplicate implementations (spec §4.5 step 7, §9);
that duplicate module is not among the provided sources. It applies
`score ≥ threshold` to the merged, descending-sorted results before applying
the cap `k`. -/
def aggregateFilteredVariant (merged : List SearchResult) (threshold : ℚ)
    (k : ℕ) : List SearchResult :=
  ((pySortDesc (fun r => r.score) merged).filter
    (fun r => decide (threshold ≤ r.score))).take k

/-! ### Context assembler (`get_search_context`, lines 669-705) -/

/-- `result_text` formatting (lines 691-692):
`"[Source: {source_name}] {content}\n\n"`. -/
def formatResult (r : SearchResult) : List Char :=
  "[Source: ".toList ++ r.source_name ++ (']' :: ' ' :: r.content)
    ++ ['\n', '\n']

/-- The greedy accumulation loop (lines 686-699): append each formatted
result while the running length stays within the budget; the first overflow
breaks out of the loop. -/
def contextParts (maxLen : ℕ) : ℕ → List SearchResult → List (List Char)
  | _, [] => []
  | cur, r :: rs =>
    let t := formatResult r
    if maxLen < cur + t.length then []
    else t :: contextParts maxLen (cur + t.length) rs

/-- Total formatted length of a result list (specification helper). -/
def fmtLen (l : List SearchResult) : ℕ :=
  (l.map (fun r => (formatResult r).length)).sum

/-- `get_search_context` (lines 669-705): empty input yields `""`; otherwise
the kept parts are joined and stripped. -/
def getSearchContext (u : UnifiedSearchResult) (maxLen : ℕ) : List Char :=
  if u.results.isEmpty then []
  else pyStrip (contextParts maxLen 0 u.results).flatten

/-! ## Helper lemmas -/

/-- The empty string is a substring of every string (Python `"" in s`). -/
theorem containsSub_nil (hay : List Char) : containsSub hay [] = true := by
  have h0 : 0 ∈ List.range (hay.length + 1) := by
    simp [List.mem_range]
  simp only [containsSub, List.any_eq_true]
  exact ⟨0, h0, by simp [List.isPrefixOf]⟩

/-- `pySortDesc` is a permutation of its input. -/
theorem pySortDesc_perm {α : Type} (key : α → ℚ) (l : List α) :
    pySortDesc key l ~ l :=
  List.perm_insertionSort (keyGe key) l

/-- `pySortDesc` sorts descending by the key. -/
theorem pySortDesc_sorted {α : Type} (key : α → ℚ) (l : List α) :
    (pySortDesc key l).Pairwise (fun a b => key b ≤ key a) :=
  List.sorted_insertionSort (keyGe key) l

/-- `pySortDesc` is stable: the elements carrying any fixed key keep their
input order. -/
theorem pySortDesc_filter_key {α : Type} (key : α → ℚ) (l : List α) (s : ℚ) :
    (pySortDesc key l).filter (fun a => decide (key a = s))
      = l.filter (fun a => decide (key a = s)) := by
  set p : α → Bool := fun a => decide (key a = s) with hp
  have hmemkey : ∀ a ∈ l.filter p, key a = s := by
    intro a ha
    have := List.of_mem_filter ha
    simpa [hp] using this
  have hpw : (l.filter p).Pairwise (keyGe key) := by
    apply List.pairwise_of_forall_mem_list
    intro a ha b hb
    show key b ≤ key a
    rw [hmemkey a ha, hmemkey b hb]
  have hsub : l.filter p <+ pySortDesc key l :=
    List.sublist_insertionSort hpw (List.filter_sublist l)
  have hsub2 : (l.filter p).filter p <+ (pySortDesc key l).filter p :=
    List.Sublist.filter p hsub
  have hidem : (l.filter p).filter p = l.filter p := by
    simp [List.filter_filter]
  rw [hidem] at hsub2
  have hlen : ((pySortDesc key l).filter p).length = (l.filter p).length := by
    rw [← List.countP_eq_length_filter, ← List.countP_eq_length_filter]
    exact (pySortDesc_perm key l).countP_eq p
  exact ((hsub2.eq_of_length (hlen.symm)).symm)

/-- Generic `foldl max` lemma: the accumulator never decreases. -/
theorem le_foldl_max (xs : List SearchResult) (a : ℚ) :
    a ≤ xs.foldl (fun m x => max m x.score) a := by
  induction xs generalizing a with
  | nil => exact le_refl a
  | cons x xs ih =>
    exact le_trans (le_max_left a x.score) (ih (max a x.score))

/-- Generic `foldl max` lemma: every element is bounded by the fold. -/
theorem mem_le_foldl_max (xs : List SearchResult) (a : ℚ) (x : SearchResult)
    (hx : x ∈ xs) : x.score ≤ xs.foldl (fun m x => max m x.score) a := by
  induction xs generalizing a with
  | nil => cases hx
  | cons y ys ih =>
    rcases List.mem_cons.mp hx with h | h
    · subst h
      exact le_trans (le_max_right a x.score) (le_foldl_max ys (max a x.score))
    · exact ih (max a y.score) h

/-- Generic `foldl max` lemma: the fold is the accumulator or some element. -/
theorem foldl_max_mem (xs : List SearchResult) (a : ℚ) :
    xs.foldl (fun m x => max m x.score) a = a
      ∨ xs.foldl (fun m x => max m x.score) a ∈ xs.map (fun r => r.score) := by
  induction xs generalizing a with
  | nil => exact Or.inl rfl
  | cons x xs ih =>
    rw [List.foldl_cons]
    rcases ih (max a x.score) with h | h
    · rcases max_cases a x.score with ⟨h2, _⟩ | ⟨h2, _⟩
      · rw [h, h2]
        exact Or.inl rfl
      · rw [h, h2, List.map_cons]
        exact Or.inr (List.mem_cons_self _ _)
    · rw [List.map_cons]
      exact Or.inr (List.mem_cons_of_mem _ h)

/-- `maxScoreOf` of a nonempty list is an upper bound on the scores. -/
theorem le_maxScoreOf (l : List SearchResult) (r : SearchResult) (h : r ∈ l) :
    r.score ≤ maxScoreOf l := by
  cases l with
  | nil => cases h
  | cons x xs =>
    rcases List.mem_cons.mp h with h2 | h2
    · subst h2; exact le_foldl_max xs r.score
    · exact mem_le_foldl_max xs x.score r h2

/-- `maxScoreOf` of a nonempty list is one of the scores. -/
theorem maxScoreOf_mem (l : List SearchResult) (h : l ≠ []) :
    maxScoreOf l ∈ l.map (fun r => r.score) := by
  cases l with
  | nil => exact absurd rfl h
  | cons x xs =>
    rcases foldl_max_mem xs x.score with h2 | h2
    · rw [maxScoreOf, h2]; exact List.mem_cons_self _ _
    · rw [maxScoreOf]; exact List.mem_cons_of_mem _ h2

/-! ## Claims -/

/-- C1: the aggregator has two variants — the threshold-filter variant
(filter `score ≥ threshold` on the merged results, then cap to `k`) and the
source's capped-then-unfiltered variant (merged top-`k`, no threshold). On
merged results scored `[0.9, 0.6, 0.4, 0.2]` with `threshold = 0.5` and
`k = 3`, the first returns exactly the results scored `[0.9, 0.6]` and the
second exactly those scored `[0.9, 0.6, 0.4]`. -/
theorem c1_two_aggregation_variants :
    aggregateFilteredVariant
        [⟨"a".toList, 0.9, "s1".toList, "S1".toList⟩,
         ⟨"b".toList, 0.6, "s2".toList, "S2".toList⟩,
         ⟨"c".toList, 0.4, "s3".toList, "S3".toList⟩,
         ⟨"d".toList, 0.2, "s4".toList, "S4".toList⟩] 0.5 3
      = [⟨"a".toList, 0.9, "s1".toList, "S1".toList⟩,
         ⟨"b".toList, 0.6, "s2".toList, "S2".toList⟩]
    ∧ topKUnfiltered
        [⟨"a".toList, 0.9, "s1".toList, "S1".toList⟩,
         ⟨"b".toList, 0.6, "s2".toList, "S2".toList⟩,
         ⟨"c".toList, 0.4, "s3".toList, "S3".toList⟩,
         ⟨"d".toList, 0.2, "s4".toList, "S4".toList⟩] 3
      = [⟨"a".toList, 0.9, "s1".toList, "S1".toList⟩,
         ⟨"b".toList, 0.6, "s2".toList, "S2".toList⟩,
         ⟨"c".toList, 0.4, "s3".toList, "S3".toList⟩] := by
  constructor <;>
    norm_num [aggregateFilteredVariant, topKUnfiltered, pySortDesc,
      List.insertionSort, List.orderedInsert, keyGe, List.filter, List.take]

/-- C4: `search_memories` scores every backend hit with
`clamp(1 - d, 0, 1)`; `d = 0 ↦ 1`, `d = 1 ↦ 0`, `d = 1.5 ↦ 0` and
`d = -0.2 ↦ 1`, and every memory score lies in `[0, 1]`. -/
theorem c4_memory_score_clamp (userCollection : List Char)
    (hits : List MemoryHit) (d : ℚ) :
    ((searchMemories userCollection hits).map (fun r => r.score)
        = hits.map (fun h => memScore h.distance))
    ∧ memScore d = max 0 (min 1 (1 - d))
    ∧ (0 ≤ memScore d ∧ memScore d ≤ 1)
    ∧ memScore 0 = 1 ∧ memScore 1 = 0
    ∧ memScore 1.5 = 0 ∧ memScore (-0.2) = 1
    ∧ (∀ r ∈ searchMemories userCollection hits, 0 ≤ r.score ∧ r.score ≤ 1) := by
  refine ⟨?_, rfl, ⟨le_max_left 0 _, ?_⟩, by norm_num [memScore],
    by norm_num [memScore], by norm_num [memScore], by norm_num [memScore], ?_⟩
  · simp [searchMemories]
  · exact max_le (by norm_num) (min_le_left 1 (1 - d))
  · intro r hr
    rcases List.mem_map.mp hr with ⟨h, _, rfl⟩
    exact ⟨le_max_left 0 _, max_le (by norm_num) (min_le_left 1 _)⟩

/-- Witness for C4 at a concrete input. -/
theorem c4_memory_score_clamp_witness :
    (searchMemories [] [⟨"m".toList, 1/2⟩]).map (fun r => r.score) = [1/2] := by
  have h := (c4_memory_score_clamp [] [⟨"m".toList, 1/2⟩] 0).1
  rw [h]
  norm_num [memScore]

/-- C2: `unified_search` is a total function of its inputs (no exception
reaches the caller), its `query` field always carries the original query
string, and when every source fails (modelled by `none`) or returns no
results the `results` list is empty. -/
theorem c2_never_raises_empty_aggregate (query : List Char) (k : ℕ)
    (threshold : ℚ) (collections : List (List Char × List Char))
    (rawKnowledge : List RawRecord)
    (mem nts pms : Option (List SearchResult)) :
    (unified_search query k threshold collections rawKnowledge mem nts pms).query
        = query
    ∧ ((collections.isEmpty = true ∨ convertRaw collections rawKnowledge = []) →
        mem.getD [] = [] → nts.getD [] = [] → pms.getD [] = [] →
        (unified_search query k threshold collections rawKnowledge
            mem nts pms).results = []) := by
  constructor
  · simp only [unified_search]
    split <;> split <;> rfl
  · intro h1 h2 h3 h4
    have hk : (if collections.isEmpty then []
        else convertRaw collections rawKnowledge) = [] := by
      rcases h1 with h | h
      · simp [h]
      · split <;> simp [h]
    simp only [unified_search, hk, h2, h3, h4, List.append_nil, List.nil_append]
    rfl

/-- Witness for C2 at a concrete input with every source failing. -/
theorem c2_never_raises_empty_aggregate_witness :
    (unified_search "hello".toList 5 (1/2) [] [] none none none).query
        = "hello".toList
    ∧ (unified_search "hello".toList 5 (1/2) [] [] none none none).results
        = [] := by
  have h := c2_never_raises_empty_aggregate "hello".toList 5 (1/2) [] []
    none none none
  exact ⟨h.1, h.2 (Or.inl rfl) rfl rfl rfl⟩

/-- C3 counterexample: the three summary fields are not recomputed when the
`results` field is replaced after construction — `__post_init__` only runs at
construction time, so a constructed value whose `results` is replaced by `[]`
keeps `total_count = 1 ≠ 0`. -/
theorem c3_counterexample :
    ({ mkUnifiedSearchResult
          [⟨"x".toList, 1/2, "s".toList, "S".toList⟩] 0 0 [] [] with
        results := [] } : UnifiedSearchResult).total_count
      ≠ ([] : List SearchResult).length := by
  simp [mkUnifiedSearchResult, postInit]

/-- C3 (amended): after construction, `total_count` equals the length of
`results`; when `results` is nonempty, `max_score` is the maximum of the
scores (it is attained and bounds every score) and `sources` is a
duplicate-free enumeration of the set of distinct sources; when `results` is
empty, `max_score` and `sources` keep the constructor-supplied values (the
dataclass defaults are `0.0` and `[]`). Replacing the `results` field after
construction leaves all three summary fields unchanged. -/
theorem c3_amended_derived_fields (results : List SearchResult) (tc : ℕ)
    (ms : ℚ) (srcs : List (List Char)) (query : List Char) :
    (mkUnifiedSearchResult results tc ms srcs query).total_count
        = results.length
    ∧ (results ≠ [] →
        (mkUnifiedSearchResult results tc ms srcs query).max_score
            ∈ results.map (fun r => r.score)
        ∧ (∀ r ∈ results,
            r.score ≤ (mkUnifiedSearchResult results tc ms srcs query).max_score)
        ∧ (∀ s, s ∈ (mkUnifiedSearchResult results tc ms srcs query).sources
            ↔ s ∈ results.map (fun r => r.source))
        ∧ (mkUnifiedSearchResult results tc ms srcs query).sources.Nodup)
    ∧ (results = [] →
        (mkUnifiedSearchResult results tc ms srcs query).max_score = ms
        ∧ (mkUnifiedSearchResult results tc ms srcs query).sources = srcs)
    ∧ (∀ newResults : List SearchResult,
        ({ mkUnifiedSearchResult results tc ms srcs query with
            results := newResults } : UnifiedSearchResult).total_count
            = (mkUnifiedSearchResult results tc ms srcs query).total_count
        ∧ ({ mkUnifiedSearchResult results tc ms srcs query with
            results := newResults } : UnifiedSearchResult).max_score
            = (mkUnifiedSearchResult results tc ms srcs query).max_score
        ∧ ({ mkUnifiedSearchResult results tc ms srcs query with
            results := newResults } : UnifiedSearchResult).sources
            = (mkUnifiedSearchResult results tc ms srcs query).sources) := by
  refine ⟨rfl, ?_, ?_, fun newResults => ⟨rfl, rfl, rfl⟩⟩
  · intro h
    have hne : results.isEmpty = false := by
      cases results with
      | nil => exact absurd rfl h
      | cons a l => rfl
    refine ⟨?_, ?_, ?_, ?_⟩
    · show (if results.isEmpty then ms else maxScoreOf results) ∈ _
      rw [hne]
      simpa using maxScoreOf_mem results h
    · intro r hr
      show r.score ≤ (if results.isEmpty then ms else maxScoreOf results)
      rw [hne]
      simpa using le_maxScoreOf results r hr
    · intro s
      show s ∈ (if results.isEmpty then srcs else distinctSources results) ↔ _
      rw [hne]
      simp [distinctSources]
    · show List.Nodup (if results.isEmpty then srcs else distinctSources results)
      rw [hne]
      simpa [distinctSources] using
        List.nodup_dedup (results.map (fun r => r.source))
  · intro h
    subst h
    exact ⟨rfl, rfl⟩

/-- Witness for C3 (amended) at a concrete input. -/
theorem c3_amended_derived_fields_witness :
    (mkUnifiedSearchResult [⟨"x".toList, 1/2, "s".toList, "S".toList⟩]
        0 0 [] []).total_count = 1
    ∧ (mkUnifiedSearchResult [⟨"x".toList, 1/2, "s".toList, "S".toList⟩]
        0 0 [] []).max_score ∈ [(1:ℚ)/2] := by
  have h := c3_amended_derived_fields
    [⟨"x".toList, 1/2, "s".toList, "S".toList⟩] 0 0 [] []
  have h2 := (h.2.1 (by simp)).1
  exact ⟨h.1, by simpa using h2⟩

/-- C5: the results of `unified_search` are the concatenation of the
per-source lists, stably sorted descending by score (a permutation, pairwise
descending, with equal scores kept in concatenation order), truncated to the
first `k` — hence at most `k` results. -/
theorem c5_merge_sort_cap (query : List Char) (k : ℕ) (threshold : ℚ)
    (collections : List (List Char × List Char)) (rawKnowledge : List RawRecord)
    (mem nts pms : Option (List SearchResult)) (concat : List SearchResult)
    (hC : concat = (if collections.isEmpty then []
          else convertRaw collections rawKnowledge)
        ++ mem.getD [] ++ nts.getD [] ++ pms.getD []) :
    (unified_search query k threshold collections rawKnowledge mem nts pms).results
        = (pySortDesc (fun r => r.score) concat).take k
    ∧ pySortDesc (fun r => r.score) concat ~ concat
    ∧ (pySortDesc (fun r => r.score) concat).Pairwise (fun a b => b.score ≤ a.score)
    ∧ (∀ s : ℚ, (pySortDesc (fun r => r.score) concat).filter
          (fun r => decide (r.score = s))
        = concat.filter (fun r => decide (r.score = s)))
    ∧ (unified_search query k threshold collections rawKnowledge
        mem nts pms).results.length ≤ k := by
  subst hC
  have h1 : (unified_search query k threshold collections rawKnowledge
      mem nts pms).results
      = (pySortDesc (fun r => r.score)
          ((if collections.isEmpty then []
              else convertRaw collections rawKnowledge)
            ++ mem.getD [] ++ nts.getD [] ++ pms.getD [])).take k := by
    simp only [unified_search]
    split
    · split
      · rename_i h2
        rw [List.isEmpty_iff.mp h2]
        simp [mkUnifiedSearchResult, postInit, pySortDesc, List.insertionSort]
      · rfl
    · split
      · rename_i h2
        rw [List.isEmpty_iff.mp h2]
        simp [mkUnifiedSearchResult, postInit, pySortDesc, List.insertionSort]
      · rfl
  refine ⟨h1, pySortDesc_perm _ _, pySortDesc_sorted _ _,
    fun s => pySortDesc_filter_key _ _ s, ?_⟩
  rw [h1, List.length_take]
  exact min_le_left _ _

/-- Witness for C5 at a concrete input. -/
theorem c5_merge_sort_cap_witness :
    (unified_search "q".toList 2 0 [] []
        (some [⟨"m".toList, 1/2, "mem".toList, "Memories".toList⟩])
        none none).results.length ≤ 2 := by
  have h := c5_merge_sort_cap "q".toList 2 0 [] []
    (some [⟨"m".toList, 1/2, "mem".toList, "Memories".toList⟩]) none none _ rfl
  exact h.2.2.2.2

/-- C6: `search_notes` scores every readable note additively over its
lower-cased title and extracted content against the lower-cased query —
`+1.0` for the full query as a substring of the title, else `+0.5` for any
query word in the title; `+0.7` for the full query in the content, else
`+0.3` for any query word in the content — so the total is at most `1.7`,
and a note is kept among the scored notes exactly when its total is
positive. -/
theorem c6_note_scoring (query : List Char) (notes : List Note) (n : Note)
    (hn : n ∈ notes) :
    (noteScore query n =
        (if containsSub (toLowerL n.title) (toLowerL query) then 1
          else if (pySplit (toLowerL query)).any
              (fun w => containsSub (toLowerL n.title) w) then 1/2 else 0)
      + (if containsSub (toLowerL (noteContent n.data)) (toLowerL query)
            then 7/10
          else if (pySplit (toLowerL query)).any
              (fun w => containsSub (toLowerL (noteContent n.data)) w)
            then 3/10 else 0))
    ∧ noteScore query n ≤ 17/10
    ∧ ((n, noteScore query n, noteFullText n) ∈ scoredNotes query notes
        ↔ 0 < noteScore query n) := by
  refine ⟨rfl, ?_, ?_, ?_⟩
  · unfold noteScore titleScoreN contentScoreN
    split_ifs <;> norm_num
  · intro h
    have := List.of_mem_filter h
    simpa using this
  · intro h
    exact List.mem_filter.mpr ⟨List.mem_map.mpr ⟨n, hn, rfl⟩, by simpa using h⟩

/-- Witness for C6 at a concrete input: query `"py"`, note titled
`"Python"` with no content scores `1.0` and is included. -/
theorem c6_note_scoring_witness :
    noteScore "py".toList ⟨"n1".toList, "Python".toList, NoteData.absent⟩ = 1
    ∧ (⟨"n1".toList, "Python".toList, NoteData.absent⟩,
        noteScore "py".toList ⟨"n1".toList, "Python".toList, NoteData.absent⟩,
        noteFullText ⟨"n1".toList, "Python".toList, NoteData.absent⟩)
      ∈ scoredNotes "py".toList
          [⟨"n1".toList, "Python".toList, NoteData.absent⟩] := by
  have h := c6_note_scoring "py".toList
    [⟨"n1".toList, "Python".toList, NoteData.absent⟩]
    ⟨"n1".toList, "Python".toList, NoteData.absent⟩ (by simp)
  have h1 : noteScore "py".toList
      ⟨"n1".toList, "Python".toList, NoteData.absent⟩ = 1 := by
    rw [h.1]
    rw [show containsSub (toLowerL "Python".toList) (toLowerL "py".toList)
        = true from by decide]
    rw [show containsSub (toLowerL (noteContent NoteData.absent))
        (toLowerL "py".toList) = false from by decide]
    rw [show (pySplit (toLowerL "py".toList)).any
        (fun w => containsSub (toLowerL (noteContent NoteData.absent)) w)
        = false from by decide]
    norm_num
  refine ⟨h1, h.2.2.mpr ?_⟩
  rw [h1]
  norm_num

/-- C7: `search_prompts` scores every readable prompt additively over its
lower-cased command, title and content with weights `1.0/0.6`, `0.8/0.4` and
`0.6/0.2` for exact-substring/any-word matches, keeps it exactly when the
total is positive, and every included result's content is
`"/{command}: {title}"`, two newlines, and the first 500 characters of the
prompt content. -/
theorem c7_prompt_scoring (query : List Char) (prompts : List Prompt) (k : ℕ)
    (p : Prompt) (hp : p ∈ prompts) :
    (promptScore query p =
        (if containsSub (toLowerL p.command) (toLowerL query) then 1
          else if (pySplit (toLowerL query)).any
              (fun w => containsSub (toLowerL p.command) w) then 3/5 else 0)
      + (if containsSub (toLowerL p.title) (toLowerL query) then 4/5
          else if (pySplit (toLowerL query)).any
              (fun w => containsSub (toLowerL p.title) w) then 2/5 else 0)
      + (if containsSub (toLowerL p.content) (toLowerL query) then 3/5
          else if (pySplit (toLowerL query)).any
              (fun w => containsSub (toLowerL p.content) w) then 1/5 else 0))
    ∧ ((p, promptScore query p, promptFullText p) ∈ scoredPrompts query prompts
        ↔ 0 < promptScore query p)
    ∧ promptFullText p
        = ('/' :: p.command) ++ (':' :: ' ' :: p.title)
          ++ ('\n' :: '\n' :: p.content.take 500)
    ∧ (∀ r ∈ searchPrompts query prompts k, ∃ q, q ∈ prompts
        ∧ r.content = ('/' :: q.command) ++ (':' :: ' ' :: q.title)
            ++ ('\n' :: '\n' :: q.content.take 500)) := by
  refine ⟨rfl, ⟨?_, ?_⟩, rfl, ?_⟩
  · intro h
    have := List.of_mem_filter h
    simpa using this
  · intro h
    exact List.mem_filter.mpr ⟨List.mem_map.mpr ⟨p, hp, rfl⟩, by simpa using h⟩
  · intro r hr
    obtain ⟨t, ht, hrt⟩ := List.mem_map.mp hr
    have ht2 : t ∈ pySortDesc (fun t => t.2.1) (scoredPrompts query prompts) :=
      List.take_subset k _ ht
    have ht3 : t ∈ scoredPrompts query prompts :=
      (pySortDesc_perm (fun t => t.2.1) (scoredPrompts query prompts)).subset ht2
    have ht4 := List.mem_filter.mp ht3
    obtain ⟨q, hq, hqt⟩ := List.mem_map.mp ht4.1
    refine ⟨q, hq, ?_⟩
    rw [← hrt, ← hqt]
    rfl

/-- Witness for C7 at a concrete input. -/
theorem c7_prompt_scoring_witness :
    promptFullText ⟨"help".toList, "Help".toList, "abc".toList⟩
      = ('/' :: "help".toList) ++ (':' :: ' ' :: "Help".toList)
        ++ ('\n' :: '\n' :: "abc".toList.take 500) := by
  exact (c7_prompt_scoring [] [⟨"help".toList, "Help".toList, "abc".toList⟩] 3
    ⟨"help".toList, "Help".toList, "abc".toList⟩ (by simp)).2.2.1

/-- `fmtLen` of a cons. -/
theorem fmtLen_cons (r : SearchResult) (l : List SearchResult) :
    fmtLen (r :: l) = (formatResult r).length + fmtLen l := by
  simp [fmtLen]

/-- The greedy loop keeps exactly a prefix of the formatted results: the
prefix fits the budget (starting from `cur`) and the next formatted result,
if any, would overflow it. -/
theorem contextParts_greedy (maxLen : ℕ) (l : List SearchResult) :
    ∀ cur : ℕ, ∃ n, n ≤ l.length
      ∧ contextParts maxLen cur l = (l.take n).map formatResult
      ∧ (0 < n → cur + fmtLen (l.take n) ≤ maxLen)
      ∧ ∀ h : n < l.length,
          maxLen < cur + fmtLen (l.take n)
            + (formatResult (l.get ⟨n, h⟩)).length := by
  induction l with
  | nil =>
    intro cur
    exact ⟨0, Nat.le_refl 0, rfl, fun h => absurd h (Nat.lt_irrefl 0),
      fun h => absurd h (Nat.not_lt_zero 0)⟩
  | cons r rs ih =>
    intro cur
    by_cases hov : maxLen < cur + (formatResult r).length
    · refine ⟨0, Nat.zero_le _, ?_, fun h => absurd h (Nat.lt_irrefl 0), ?_⟩
      · show contextParts maxLen cur (r :: rs) = []
        simp only [contextParts]
        rw [if_pos hov]
      · intro h
        simpa [fmtLen] using hov
    · obtain ⟨n, hn, heq, hle, hnext⟩ := ih (cur + (formatResult r).length)
      refine ⟨n + 1, Nat.succ_le_succ hn, ?_, ?_, ?_⟩
      · show contextParts maxLen cur (r :: rs)
          = ((r :: rs).take (n + 1)).map formatResult
        simp only [contextParts]
        rw [if_neg hov, heq]
        rfl
      · intro _
        rw [List.take_succ_cons, fmtLen_cons]
        rcases Nat.eq_zero_or_pos n with h0 | h0
        · subst h0
          simp only [List.take_zero, fmtLen, List.map_nil, List.sum_nil]
          omega
        · have h2 := hle h0
          omega
      · intro h
        have h' : n < rs.length := Nat.lt_of_succ_lt_succ h
        rw [List.take_succ_cons, fmtLen_cons]
        have h2 := hnext h'
        have hget : (r :: rs).get ⟨n + 1, h⟩ = rs.get ⟨n, h'⟩ := rfl
        rw [hget]
        omega

/-- The flattened kept parts have total length `fmtLen` of the kept prefix. -/
theorem flatten_map_formatResult_length (l : List SearchResult) :
    ((l.map formatResult).flatten).length = fmtLen l := by
  simp [List.length_flatten, fmtLen, List.map_map, Function.comp_def]

/-- Stripping leading whitespace is the identity on a string starting with a
non-whitespace character. -/
theorem stripLeft_cons_of_not_ws (c : Char) (t : List Char)
    (h : c.isWhitespace = false) : stripLeft (c :: t) = c :: t := by
  simp [stripLeft, List.dropWhile_cons, h]

/-- Every formatted result starts with the character `[`. -/
theorem formatResult_eq_cons (r : SearchResult) :
    ∃ t, formatResult r = '[' :: t := by
  refine ⟨"Source: ".toList ++ (r.source_name
    ++ ((']' :: ' ' :: r.content) ++ ['\n', '\n'])), ?_⟩
  rw [formatResult,
    show "[Source: ".toList = '[' :: "Source: ".toList from by decide]
  simp [List.cons_append, List.append_assoc]

/-- The concatenation of formatted results has no leading whitespace. -/
theorem stripLeft_flatten_formatResult (xs : List SearchResult) :
    stripLeft ((xs.map formatResult).flatten) = (xs.map formatResult).flatten := by
  cases xs with
  | nil => rfl
  | cons r rest =>
    obtain ⟨t, ht⟩ := formatResult_eq_cons r
    rw [List.map_cons, List.flatten_cons, ht, List.cons_append]
    exact stripLeft_cons_of_not_ws '[' _ (by decide)

/-- Stripping trailing whitespace never lengthens a string. -/
theorem stripRight_length_le (s : List Char) :
    (stripRight s).length ≤ s.length := by
  rw [stripRight, List.length_reverse]
  calc (s.reverse.dropWhile Char.isWhitespace).length
      ≤ s.reverse.length := (List.dropWhile_sublist _).length_le
    _ = s.length := List.length_reverse s

/-- C8: `get_search_context` iterates the results in order, appends each
formatted `"[Source: {source_name}] {content}\n\n"` greedily while the
running length stays within `max_chars` — the first overflowing result and
everything after it are dropped entirely — and returns the concatenation with
trailing whitespace stripped, of length at most `max_chars`; empty results
yield the empty string. -/
theorem c8_context_assembly (u : UnifiedSearchResult) (maxLen : ℕ) :
    (getSearchContext u maxLen).length ≤ maxLen
    ∧ (u.results = [] → getSearchContext u maxLen = [])
    ∧ (∃ n, n ≤ u.results.length
        ∧ contextParts maxLen 0 u.results = (u.results.take n).map formatResult
        ∧ fmtLen (u.results.take n) ≤ maxLen
        ∧ ∀ h : n < u.results.length,
            maxLen < fmtLen (u.results.take n)
              + (formatResult (u.results.get ⟨n, h⟩)).length)
    ∧ getSearchContext u maxLen
        = stripRight (contextParts maxLen 0 u.results).flatten := by
  obtain ⟨n, hn, heq, hle, hnext⟩ := contextParts_greedy maxLen u.results 0
  have hflatten : (contextParts maxLen 0 u.results).flatten
      = ((u.results.take n).map formatResult).flatten := by rw [heq]
  have hstrip : getSearchContext u maxLen
      = stripRight (contextParts maxLen 0 u.results).flatten := by
    unfold getSearchContext
    split
    · rename_i h
      rw [List.isEmpty_iff.mp h]
      rfl
    · rw [pyStrip, hflatten, stripLeft_flatten_formatResult, ← hflatten]
  have hlen0 : fmtLen (u.results.take n) ≤ maxLen := by
    rcases Nat.eq_zero_or_pos n with h0 | h0
    · subst h0
      simp [fmtLen]
    · simpa using hle h0
  refine ⟨?_, ?_, ⟨n, hn, heq, hlen0, fun h => by simpa using hnext h⟩, hstrip⟩
  · rw [hstrip]
    calc (stripRight (contextParts maxLen 0 u.results).flatten).length
        ≤ ((contextParts maxLen 0 u.results).flatten).length :=
          stripRight_length_le _
      _ = fmtLen (u.results.take n) := by
          rw [hflatten, flatten_map_formatResult_length]
      _ ≤ maxLen := hlen0
  · intro h
    simp [getSearchContext, h]

/-- Witness for C8 at a concrete input with no results. -/
theorem c8_context_assembly_witness :
    getSearchContext (mkUnifiedSearchResult [] 0 0 [] []) 50 = [] :=
  (c8_context_assembly (mkUnifiedSearchResult [] 0 0 [] []) 50).2.1 rfl

/-- C9 counterexample: a knowledge-collection raw record whose document has
empty `text` and `content` fields but a positive score is converted and
returned by `unified_search` as-is, so the aggregation emits a result with
score `0.9 > 0` and empty content — the check "positive score implies
non-empty content" fails on the returned results. -/
theorem c9_counterexample :
    ((unified_search "q".toList 5 (1/2) [("c1".toList, "KB".toList)]
        [RawRecord.tup "c1".toList (9/10) ⟨[], [], none⟩]
        none none none).results.all
      (fun r => !(decide (0 < r.score)) || !r.content.isEmpty)) = false := by
  have hres : (unified_search "q".toList 5 (1/2) [("c1".toList, "KB".toList)]
      [RawRecord.tup "c1".toList (9/10) ⟨[], [], none⟩]
      none none none).results
      = [⟨[], 9/10, "c1".toList, "KB".toList⟩] := rfl
  rw [hres]
  have hd : decide ((0:ℚ) < 9/10) = true := decide_eq_true (by norm_num)
  simp [hd]

/-- C9 (amended): only the prompt adapter guarantees non-empty content —
every result of `search_prompts` has content beginning with `'/'`, hence
non-empty; the knowledge, memory and note adapters copy backend-provided
text (or the note's title) verbatim, which can be empty even with a positive
score. -/
theorem c9_amended_prompt_content_nonempty (query : List Char)
    (prompts : List Prompt) (k : ℕ) (r : SearchResult)
    (hr : r ∈ searchPrompts query prompts k) : r.content ≠ [] := by
  obtain ⟨t, ht, hrt⟩ := List.mem_map.mp hr
  have ht3 : t ∈ scoredPrompts query prompts :=
    (pySortDesc_perm (fun t => t.2.1) (scoredPrompts query prompts)).subset
      (List.take_subset k _ ht)
  obtain ⟨q, hq, hqt⟩ := List.mem_map.mp (List.mem_filter.mp ht3).1
  rw [← hrt]
  show t.2.2 ≠ []
  rw [← hqt]
  show promptFullText q ≠ []
  simp [promptFullText]

/-- Witness for C9 (amended) at a concrete input. -/
theorem c9_amended_prompt_content_nonempty_witness :
    (⟨promptFullText ⟨"x".toList, "t".toList, "c".toList⟩,
        promptScore [] ⟨"x".toList, "t".toList, "c".toList⟩,
        "x".toList, "Prompt: ".toList ++ "t".toList⟩ : SearchResult).content
      ≠ [] := by
  apply c9_amended_prompt_content_nonempty []
    [⟨"x".toList, "t".toList, "c".toList⟩] 3
  have hscore : promptScore [] ⟨"x".toList, "t".toList, "c".toList⟩
      = 12/5 := by
    norm_num [promptScore, commandScoreP, titleScoreP, contentScoreP,
      toLowerL, containsSub_nil]
  have hd : decide (0 < ((⟨"x".toList, "t".toList, "c".toList⟩ : Prompt),
      promptScore [] ⟨"x".toList, "t".toList, "c".toList⟩,
      promptFullText ⟨"x".toList, "t".toList, "c".toList⟩).2.1) = true :=
    decide_eq_true (by
      show (0:ℚ) < promptScore [] ⟨"x".toList, "t".toList, "c".toList⟩
      rw [hscore]
      norm_num)
  have hscored : scoredPrompts [] [⟨"x".toList, "t".toList, "c".toList⟩]
      = [(⟨"x".toList, "t".toList, "c".toList⟩,
          promptScore [] ⟨"x".toList, "t".toList, "c".toList⟩,
          promptFullText ⟨"x".toList, "t".toList, "c".toList⟩)] := by
    simp only [scoredPrompts, List.map_cons, List.map_nil, List.filter_cons,
      List.filter_nil, hd]
    simp
  show _ ∈ searchPrompts [] [⟨"x".toList, "t".toList, "c".toList⟩] 3
  unfold searchPrompts
  rw [hscored]
  exact List.mem_singleton.mpr rfl

set_option maxHeartbeats 1000000 in
/-- C10: with the empty query, the exact-substring checks succeed on every
field, so every readable note scores exactly `1.7` and every readable prompt
scores exactly `2.4`, regardless of titles or contents; every note/prompt is
included up to the per-source cap `k` (in input order when `k` is large
enough). -/
theorem c10_empty_query (notes : List Note) (prompts : List Prompt) (k : ℕ) :
    (∀ n ∈ notes, noteScore [] n = 17/10)
    ∧ (searchNotes [] notes k).length = min k notes.length
    ∧ (∀ r ∈ searchNotes [] notes k, r.score = 17/10)
    ∧ (notes.length ≤ k →
        (searchNotes [] notes k).map (fun r => r.source)
          = notes.map (fun n => n.id))
    ∧ (∀ p ∈ prompts, promptScore [] p = 12/5)
    ∧ (searchPrompts [] prompts k).length = min k prompts.length
    ∧ (∀ r ∈ searchPrompts [] prompts k, r.score = 12/5)
    ∧ (prompts.length ≤ k →
        (searchPrompts [] prompts k).map (fun r => r.source)
          = prompts.map (fun p => p.command)) := by
  have hnote : ∀ n : Note, noteScore [] n = 17/10 := by
    intro n
    norm_num [noteScore, titleScoreN, contentScoreN, toLowerL, containsSub_nil]
  have hprompt : ∀ p : Prompt, promptScore [] p = 12/5 := by
    intro p
    norm_num [promptScore, commandScoreP, titleScoreP, contentScoreP,
      toLowerL, containsSub_nil]
  have hfN : scoredNotes [] notes
      = notes.map (fun n => (n, noteScore [] n, noteFullText n)) := by
    apply List.filter_eq_self.mpr
    intro t ht
    obtain ⟨n, _, rfl⟩ := List.mem_map.mp ht
    exact decide_eq_true (by rw [show ((n, noteScore [] n, noteFullText n)).2.1
      = noteScore [] n from rfl, hnote n]; norm_num)
  have hfP : scoredPrompts [] prompts
      = prompts.map (fun p => (p, promptScore [] p, promptFullText p)) := by
    apply List.filter_eq_self.mpr
    intro t ht
    obtain ⟨p, _, rfl⟩ := List.mem_map.mp ht
    exact decide_eq_true (by rw [show ((p, promptScore [] p, promptFullText p)).2.1
      = promptScore [] p from rfl, hprompt p]; norm_num)
  have hsortN : pySortDesc (fun t => t.2.1) (scoredNotes [] notes)
      = scoredNotes [] notes := by
    apply List.Sorted.insertionSort_eq
    apply List.pairwise_of_forall_mem_list
    intro a ha b hb
    rw [hfN] at ha hb
    obtain ⟨n1, _, rfl⟩ := List.mem_map.mp ha
    obtain ⟨n2, _, rfl⟩ := List.mem_map.mp hb
    show (n2, noteScore [] n2, noteFullText n2).2.1
      ≤ (n1, noteScore [] n1, noteFullText n1).2.1
    rw [show ((n1, noteScore [] n1, noteFullText n1)).2.1
      = noteScore [] n1 from rfl, show ((n2, noteScore [] n2,
      noteFullText n2)).2.1 = noteScore [] n2 from rfl, hnote n1, hnote n2]
  have hsortP : pySortDesc (fun t => t.2.1) (scoredPrompts [] prompts)
      = scoredPrompts [] prompts := by
    apply List.Sorted.insertionSort_eq
    apply List.pairwise_of_forall_mem_list
    intro a ha b hb
    rw [hfP] at ha hb
    obtain ⟨p1, _, rfl⟩ := List.mem_map.mp ha
    obtain ⟨p2, _, rfl⟩ := List.mem_map.mp hb
    show (p2, promptScore [] p2, promptFullText p2).2.1
      ≤ (p1, promptScore [] p1, promptFullText p1).2.1
    rw [show ((p1, promptScore [] p1, promptFullText p1)).2.1
      = promptScore [] p1 from rfl, show ((p2, promptScore [] p2,
      promptFullText p2)).2.1 = promptScore [] p2 from rfl,
      hprompt p1, hprompt p2]
  refine ⟨fun n _ => hnote n, ?_, ?_, ?_, fun p _ => hprompt p, ?_, ?_, ?_⟩
  · unfold searchNotes
    rw [List.length_map, List.length_take,
      (pySortDesc_perm (fun t => t.2.1) (scoredNotes [] notes)).length_eq,
      hfN, List.length_map]
  · intro r hr
    obtain ⟨t, ht, hrt⟩ := List.mem_map.mp hr
    have ht2 : t ∈ scoredNotes [] notes :=
      (pySortDesc_perm (fun t => t.2.1) (scoredNotes [] notes)).subset
        (List.take_subset k _ ht)
    rw [hfN] at ht2
    obtain ⟨n, _, rfl⟩ := List.mem_map.mp ht2
    rw [← hrt]
    show noteScore [] n = 17/10
    exact hnote n
  · intro hk
    unfold searchNotes
    rw [hsortN, List.take_of_length_le (by
      rw [hfN, List.length_map]; exact hk), hfN]
    simp [List.map_map, Function.comp_def]
  · unfold searchPrompts
    rw [List.length_map, List.length_take,
      (pySortDesc_perm (fun t => t.2.1) (scoredPrompts [] prompts)).length_eq,
      hfP, List.length_map]
  · intro r hr
    obtain ⟨t, ht, hrt⟩ := List.mem_map.mp hr
    have ht2 : t ∈ scoredPrompts [] prompts :=
      (pySortDesc_perm (fun t => t.2.1) (scoredPrompts [] prompts)).subset
        (List.take_subset k _ ht)
    rw [hfP] at ht2
    obtain ⟨p, _, rfl⟩ := List.mem_map.mp ht2
    rw [← hrt]
    show promptScore [] p = 12/5
    exact hprompt p
  · intro hk
    unfold searchPrompts
    rw [hsortP, List.take_of_length_le (by
      rw [hfP, List.length_map]; exact hk), hfP]
    simp [List.map_map, Function.comp_def]

/-- Witness for C10 at concrete inputs. -/
theorem c10_empty_query_witness :
    noteScore [] ⟨"n1".toList, "T".toList, NoteData.absent⟩ = 17/10
    ∧ promptScore [] ⟨"x".toList, "t".toList, "c".toList⟩ = 12/5 := by
  have h := c10_empty_query [⟨"n1".toList, "T".toList, NoteData.absent⟩]
    [⟨"x".toList, "t".toList, "c".toList⟩] 3
  exact ⟨h.1 _ (by simp), h.2.2.2.2.1 _ (by simp)⟩

end Friday
